import Mathlib

/-!
Verification of the trade-ngin ingestion pipeline against its specification.

The repository ingests daily OHLCV futures data from the Databento provider
and persists it into a PostgreSQL table `futures_data.ohlcv_1d` with primary
key `(time, symbol)`, using `INSERT ... ON CONFLICT (time, symbol) DO UPDATE`
upserts.  Three script variants implement the pipeline:

* `src/scripts/fetch_data.py` — per-row insert loop, each `cur.execute`
  wrapped in its own `try/except` that logs and `continue`s; one final commit.
* `src/scripts/ingest_data.py` and `src/trade_ngin/scripts/ingest_data.py`
  — build a `records` list (localizing `ts_event` to UTC), then send the
  whole batch through one `psycopg2.extras.execute_values` statement and
  commit once.
* `src/trade_ngin/adapters/databento.py` — the raw fetch adapter; a failing
  provider call is re-raised as `ValueError("Error requesting data: ...")`.

This file gives a shallow embedding of those code paths and proves / refutes
the specification's claims about them.  Prices are embedded as exact
rationals (the scripts perform no arithmetic on them, only storage), machine
timestamps as integers carrying an optional timezone tag, and the SQL table
as a list of rows whose (time, symbol) keys the primary key keeps unique.
-/

/-- A pandas-style timestamp: an integer instant `v` (the digits of the
timestamp, nanoseconds since epoch) together with an optional timezone tag
`tz` (`none` = naive, `some 0` = UTC).  `tz_localize(timezone.utc)` attaches
`some 0` without shifting `v`. -/
structure PyTimestamp where
  v : Int
  tz : Option Int
deriving DecidableEq, Repr

/-- One provider-native OHLCV observation as delivered by
`client.timeseries.get_range(...).to_df()`: the `ts_event` timestamp, a
provider-side symbol/instrument field (never read by the ingestion scripts),
the four prices and the volume.  `src/scripts/fetch_data.py` reads the same
timestamp value under the attribute name `row.timestamp`. -/
structure RawMarketRow where
  ts_event : PyTimestamp
  symbol : String
  openv : Rat
  high : Rat
  low : Rat
  close : Rat
  volume : Int
deriving DecidableEq, Repr

/-- The persisted unit: one row of `futures_data.ohlcv_1d`
`(time timestamptz, symbol text, open float8, high float8, low float8,
close float8, volume integer, PRIMARY KEY (time, symbol))`.
The Python column name `open` is a Lean keyword, so the field is `openv`. -/
structure CanonicalRecord where
  time : PyTimestamp
  symbol : String
  openv : Rat
  high : Rat
  low : Rat
  close : Rat
  volume : Int
deriving DecidableEq, Repr

/-- The store: the rows of `futures_data.ohlcv_1d`, in insertion order. -/
abbrev Store := List CanonicalRecord

/-- The `ON CONFLICT (time, symbol)` comparison: row `x` already in the
table conflicts with incoming row `r` when their key columns coincide. -/
def keyMatch (x r : CanonicalRecord) : Bool :=
  x.time.v == r.time.v && x.symbol == r.symbol

/-- Whether some stored row conflicts with `r` on `(time, symbol)`. -/
def hasKey (s : Store) (r : CanonicalRecord) : Bool :=
  s.any (fun x => keyMatch x r)

/-- The effect of one
`INSERT ... ON CONFLICT (time, symbol) DO UPDATE SET open = EXCLUDED.open, ...`
row: if a row with the key exists its open/high/low/close/volume are
overwritten in place (the key columns are untouched, and overwriting with
`r` itself realizes that since the keys coincide), otherwise the row is
appended. -/
def upsert (s : Store) (r : CanonicalRecord) : Store :=
  if hasKey s r then
    s.map (fun x => if keyMatch x r then r else x)
  else
    s ++ [r]

/-- The committed effect of writing a whole batch, row after row (this is
both the semantics of the single `execute_values` multi-row
`INSERT ... ON CONFLICT` statement and of the row loop when every row
succeeds). -/
def writeList (s : Store) (B : List CanonicalRecord) : Store :=
  B.foldl upsert s

/-- The writer interface of the spec: `write(records) → count of rows
affected`.  With `ON CONFLICT ... DO UPDATE` every input row is either
inserted or updated, so the affected-row count (the count the scripts log,
`len(records)`) is the batch length. -/
def write (s : Store) (B : List CanonicalRecord) : Store × Nat :=
  (writeList s B, B.length)

/-- Sanity: upsert on an empty store appends. -/
example : upsert [] ⟨⟨1, some 0⟩, "ES", 1, 2, 0, 1, 5⟩ =
    [⟨⟨1, some 0⟩, "ES", 1, 2, 0, 1, 5⟩] := by decide

/-- Sanity: re-upserting the same key overwrites, not appends. -/
example :
    upsert [⟨⟨1, some 0⟩, "ES", 1, 2, 0, 1, 5⟩] ⟨⟨1, some 0⟩, "ES", 3, 4, 2, 3, 9⟩ =
    [⟨⟨1, some 0⟩, "ES", 3, 4, 2, 3, 9⟩] := by decide

/-! ### Key-matching lemmas -/

theorem keyMatch_iff {x r : CanonicalRecord} :
    keyMatch x r = true ↔ x.time.v = r.time.v ∧ x.symbol = r.symbol := by
  simp [keyMatch]

theorem keyMatch_refl (r : CanonicalRecord) : keyMatch r r = true := by
  simp [keyMatch]

theorem keyMatch_left_congr {x y : CanonicalRecord}
    (hv : x.time.v = y.time.v) (hs : x.symbol = y.symbol) (r : CanonicalRecord) :
    keyMatch x r = keyMatch y r := by
  simp [keyMatch, hv, hs]

/-- Overwriting a conflicting row with the incoming row preserves the key
columns, so later conflict tests are unchanged. -/
theorem keyMatch_updf (x r r' : CanonicalRecord) :
    keyMatch (if keyMatch x r then r else x) r' = keyMatch x r' := by
  by_cases h : keyMatch x r = true
  · obtain ⟨hv, hs⟩ := keyMatch_iff.mp h
    simp only [h, if_true]
    exact keyMatch_left_congr hv.symm hs.symm r'
  · simp [h]

theorem hasKey_map_updf (s : Store) (r' r : CanonicalRecord) :
    hasKey (s.map (fun x => if keyMatch x r' then r' else x)) r = hasKey s r := by
  simp [hasKey, List.any_map, Function.comp_def, keyMatch_updf]

theorem hasKey_upsert_self (s : Store) (r : CanonicalRecord) :
    hasKey (upsert s r) r = true := by
  unfold upsert
  by_cases h : hasKey s r = true
  · simp [h, hasKey_map_updf]
  · rw [if_neg h]
    unfold hasKey
    simp [List.any_append, keyMatch_refl]

theorem hasKey_upsert_of_hasKey {s : Store} {r : CanonicalRecord} (r' : CanonicalRecord)
    (h : hasKey s r = true) : hasKey (upsert s r') r = true := by
  unfold upsert
  by_cases h' : hasKey s r' = true
  · simpa [h', hasKey_map_updf]
  · simp only [h', if_false]
    unfold hasKey at h ⊢
    simp [List.any_append, h]

theorem hasKey_writeList_of_hasKey {B : List CanonicalRecord} :
    ∀ {s : Store} {r : CanonicalRecord}, hasKey s r = true →
      hasKey (writeList s B) r = true := by
  induction B with
  | nil => intro s r h; simpa [writeList] using h
  | cons b B' ih =>
    intro s r h
    show hasKey (List.foldl upsert (upsert s b) B') r = true
    exact ih (hasKey_upsert_of_hasKey b h)

/-- After writing a batch, every key of the batch is present in the store. -/
theorem hasKey_writeList_mem {B : List CanonicalRecord} :
    ∀ {s : Store} {r : CanonicalRecord}, r ∈ B → hasKey (writeList s B) r = true := by
  induction B with
  | nil => intro s r h; cases h
  | cons b B' ih =>
    intro s r h
    rcases List.mem_cons.mp h with rfl | h'
    · show hasKey (writeList (upsert s r) B') r = true
      exact hasKey_writeList_of_hasKey (hasKey_upsert_self s r)
    · exact ih h'

/-! ### A pointwise characterization of repeated upserts -/

/-- The cumulative effect of a batch on one already-stored row: each batch
row conflicting with it overwrites it (last write wins). -/
def applyB (B : List CanonicalRecord) (x : CanonicalRecord) : CanonicalRecord :=
  B.foldl (fun a r => if keyMatch x r then r else a) x

theorem foldl_congr_fun {α β : Type} {f g : α → β → α}
    (h : ∀ a b, f a b = g a b) (l : List β) (i : α) : l.foldl f i = l.foldl g i := by
  have hf : f = g := funext fun a => funext fun b => h a b
  rw [hf]

theorem applyB_cons (r : CanonicalRecord) (B : List CanonicalRecord) (x : CanonicalRecord) :
    applyB (r :: B) x = applyB B (if keyMatch x r then r else x) := by
  unfold applyB
  rw [List.foldl_cons]
  exact foldl_congr_fun (fun a b => by rw [keyMatch_updf]) B _

theorem applyB_append (B : List CanonicalRecord) (r x : CanonicalRecord) :
    applyB (B ++ [r]) x = if keyMatch x r then r else applyB B x := by
  unfold applyB
  rw [List.foldl_append]
  rfl

/-- When every key of the batch already exists in the store, writing the
batch is a pure in-place update of the stored rows. -/
theorem writeList_eq_map_applyB {B : List CanonicalRecord} :
    ∀ {t : Store}, (∀ r ∈ B, hasKey t r = true) → writeList t B = t.map (applyB B) := by
  induction B with
  | nil =>
    intro t _
    show t = t.map (applyB [])
    have : applyB [] = fun x => x := funext fun x => rfl
    rw [this, List.map_id']
  | cons r B' ih =>
    intro t h
    have hr : hasKey t r = true := h r (List.mem_cons_self r B')
    have hup : upsert t r = t.map (fun x => if keyMatch x r then r else x) := by
      unfold upsert; rw [if_pos hr]
    show writeList (upsert t r) B' = t.map (applyB (r :: B'))
    rw [hup]
    have hpre : ∀ r' ∈ B', hasKey (t.map (fun x => if keyMatch x r then r else x)) r' = true := by
      intro r' hr'
      rw [hasKey_map_updf]
      exact h r' (List.mem_cons_of_mem r hr')
    rw [ih hpre, List.map_map]
    exact List.map_congr_left fun x _ => (applyB_cons r B' x).symm

theorem keyMatch_eq_false_of_not_hasKey {s : Store} {r : CanonicalRecord}
    (h : hasKey s r = false) : ∀ x ∈ s, keyMatch x r = false := by
  intro x hx
  have := List.any_eq_false.mp h x hx
  simpa using this

/-- Every row present in the store after writing a batch is already stable
under a second pass of the same batch: the last batch row for its key (or
the untouched original) is exactly what is stored. -/
theorem applyB_fixpoint {B : List CanonicalRecord} :
    ∀ {s : Store} {y : CanonicalRecord}, y ∈ writeList s B → applyB B y = y := by
  induction B using List.reverseRecOn with
  | nil => intro s y _; rfl
  | append_singleton B' r ih =>
    intro s y hy
    rw [writeList, List.foldl_append, List.foldl_cons, List.foldl_nil] at hy
    by_cases h : hasKey (List.foldl upsert s B') r = true
    · rw [upsert, if_pos h] at hy
      obtain ⟨x, hx, hxy⟩ := List.mem_map.mp hy
      by_cases hm : keyMatch x r = true
      · rw [if_pos hm] at hxy
        subst hxy
        rw [applyB_append, if_pos (keyMatch_refl r)]
      · rw [if_neg hm] at hxy
        subst hxy
        rw [applyB_append, if_neg hm, ih hx]
    · rw [upsert, if_neg h] at hy
      rcases List.mem_append.mp hy with h' | h'
      · have hfalse : hasKey (List.foldl upsert s B') r = false := by
          simpa using h
        have hne : keyMatch y r = false :=
          keyMatch_eq_false_of_not_hasKey hfalse y h'
        rw [applyB_append, if_neg (by simp [hne]), ih h']
      · have hyr : y = r := List.mem_singleton.mp h'
        subst hyr
        rw [applyB_append, if_pos (keyMatch_refl y)]

/-- Re-writing an already-written batch leaves the stored rows unchanged. -/
theorem writeList_idem (s : Store) (B : List CanonicalRecord) :
    writeList (writeList s B) B = writeList s B := by
  have h1 : ∀ r ∈ B, hasKey (writeList s B) r = true := fun r hr => hasKey_writeList_mem hr
  rw [writeList_eq_map_applyB h1]
  have h2 : ∀ y ∈ writeList s B, applyB B y = y := fun y hy => applyB_fixpoint hy
  calc (writeList s B).map (applyB B)
      = (writeList s B).map (fun y => y) := List.map_congr_left h2
    _ = writeList s B := List.map_id' _

/-! ### Key uniqueness (the PRIMARY KEY invariant) -/

/-- Two rows collide on the `(time, symbol)` natural key. -/
def sameKey (a b : CanonicalRecord) : Prop :=
  a.time.v = b.time.v ∧ a.symbol = b.symbol

theorem sameKey_iff_keyMatch {a b : CanonicalRecord} : sameKey a b ↔ keyMatch a b = true :=
  keyMatch_iff.symm

theorem sameKey_symm {a b : CanonicalRecord} (h : sameKey a b) : sameKey b a :=
  ⟨h.1.symm, h.2.symm⟩

theorem sameKey_trans {a b c : CanonicalRecord} (h1 : sameKey a b) (h2 : sameKey b c) :
    sameKey a c :=
  ⟨h1.1.trans h2.1, h1.2.trans h2.2⟩

/-- No two rows of the store share a `(time, symbol)` key — the property the
`PRIMARY KEY (time, symbol)` declaration of `ensure_schema_exists` enforces. -/
def uniqueKeys (s : Store) : Prop :=
  s.Pairwise (fun a b => ¬ sameKey a b)

theorem updf_sameKey (x r : CanonicalRecord) :
    sameKey (if keyMatch x r then r else x) x := by
  by_cases hm : keyMatch x r = true
  · rw [if_pos hm]
    exact sameKey_symm (keyMatch_iff.mp hm)
  · rw [if_neg hm]
    exact ⟨rfl, rfl⟩

theorem uniqueKeys_upsert {s : Store} (r : CanonicalRecord) (h : uniqueKeys s) :
    uniqueKeys (upsert s r) := by
  unfold upsert
  by_cases hk : hasKey s r = true
  · rw [if_pos hk]
    rw [uniqueKeys, List.pairwise_map]
    exact h.imp fun {a b} hab hsk =>
      hab (sameKey_trans (sameKey_trans (sameKey_symm (updf_sameKey a r)) hsk)
        (updf_sameKey b r))
  · rw [if_neg hk]
    rw [uniqueKeys, List.pairwise_append]
    refine ⟨h, List.pairwise_singleton _ _, ?_⟩
    intro a ha b hb
    rw [List.mem_singleton] at hb
    subst hb
    intro hsk
    have hmm : keyMatch a b = true := sameKey_iff_keyMatch.mp hsk
    have hfalse : hasKey s b = false := by simpa using hk
    have := keyMatch_eq_false_of_not_hasKey hfalse a ha
    simp_all

theorem uniqueKeys_writeList (B : List CanonicalRecord) :
    ∀ {s : Store}, uniqueKeys s → uniqueKeys (writeList s B) := by
  induction B with
  | nil => intro s h; exact h
  | cons b B' ih =>
    intro s h
    show uniqueKeys (writeList (upsert s b) B')
    exact ih (uniqueKeys_upsert b h)

/-- The rows of a batch-write's output all come from the prior store or the
batch itself (no row is invented). -/
theorem mem_writeList {B : List CanonicalRecord} :
    ∀ {s : Store} {y : CanonicalRecord}, y ∈ writeList s B → y ∈ s ∨ y ∈ B := by
  induction B with
  | nil => intro s y h; exact Or.inl h
  | cons b B' ih =>
    intro s y h
    have h' : y ∈ writeList (upsert s b) B' := h
    rcases ih h' with h'' | h''
    · unfold upsert at h''
      by_cases hk : hasKey s b = true
      · rw [if_pos hk] at h''
        obtain ⟨x, hx, hxy⟩ := List.mem_map.mp h''
        by_cases hm : keyMatch x b = true
        · rw [if_pos hm] at hxy
          exact Or.inr (hxy ▸ List.mem_cons_self b B')
        · rw [if_neg hm] at hxy
          exact Or.inl (hxy ▸ hx)
      · rw [if_neg hk] at h''
        rcases List.mem_append.mp h'' with h3 | h3
        · exact Or.inl h3
        · exact Or.inr (List.mem_cons.mpr (Or.inl (List.mem_singleton.mp h3)))
    · exact Or.inr (List.mem_cons_of_mem b h'')

/-! ### Theorems for claims C1–C3 -/

/-- C1: for every store state and batch B, running `write(B)` and then
`write(B)` again leaves the store in exactly the state of a single
`write(B)`, and the second call's affected-row count is `|B|` (the second
component of `write`): re-ingestion creates no duplicate rows. -/
theorem C1_write_idempotent (s : Store) (B : List CanonicalRecord) :
    write (write s B).1 B = write s B := by
  simp only [write, writeList_idem]

theorem filter_map_updf {r : CanonicalRecord} :
    ∀ {s : Store}, uniqueKeys s → hasKey s r = true →
      (s.map (fun x => if keyMatch x r then r else x)).filter
        (fun x => keyMatch x r) = [r] := by
  intro s
  induction s with
  | nil => intro _ h2; simp [hasKey] at h2
  | cons x s' ih =>
    intro h1 h2
    have hpw : ∀ y ∈ s', ¬ sameKey x y := (List.pairwise_cons.mp h1).1
    have h1' : uniqueKeys s' := (List.pairwise_cons.mp h1).2
    by_cases hm : keyMatch x r = true
    · have htail : ∀ y ∈ s', keyMatch y r = false := by
        intro y hy
        cases hq : keyMatch y r with
        | false => rfl
        | true =>
          exact absurd
            (sameKey_trans (keyMatch_iff.mp hm) (sameKey_symm (keyMatch_iff.mp hq)))
            (hpw y hy)
      rw [List.map_cons, if_pos hm,
        List.filter_cons_of_pos (p := fun x => keyMatch x r) (keyMatch_refl r)]
      have hnil : (s'.map (fun x => if keyMatch x r then r else x)).filter
          (fun x => keyMatch x r) = [] := by
        rw [List.filter_eq_nil_iff]
        intro z hz
        obtain ⟨y, hy, hyz⟩ := List.mem_map.mp hz
        have : keyMatch z r = keyMatch y r := hyz ▸ keyMatch_updf y r r
        simp [this, htail y hy]
      rw [hnil]
    · have h2' : hasKey s' r = true := by
        unfold hasKey at h2 ⊢
        rcases List.any_eq_true.mp h2 with ⟨y, hy, hyr⟩
        rcases List.mem_cons.mp hy with rfl | hy'
        · exact absurd hyr hm
        · exact List.any_eq_true.mpr ⟨y, hy', hyr⟩
      rw [List.map_cons, if_neg hm, List.filter_cons_of_neg (by simp [hm])]
      exact ih h1' h2'

/-- C2: upserting a record whose `(time, symbol)` key already exists in a
store with unique keys leaves exactly one row under that key, carrying the
new open/high/low/close/volume values, and adds no row (last-write-wins,
not append). -/
theorem C2_upsert_overwrites (s : Store) (r : CanonicalRecord)
    (h1 : uniqueKeys s) (h2 : hasKey s r = true) :
    (upsert s r).filter (fun x => keyMatch x r) = [r] ∧
      (upsert s r).length = s.length := by
  constructor
  · rw [upsert, if_pos h2]
    exact filter_map_updf h1 h2
  · rw [upsert, if_pos h2, List.length_map]

/-- A stored row for the witness: ES on 2024-01-02 (epoch nanoseconds),
close 4700.00. -/
def esOld : CanonicalRecord :=
  ⟨⟨1704153600000000000, some 0⟩, "ES", 4700, 4700, 4700, 4700, 100⟩

/-- The re-ingested row for the same `(time, symbol)` key, close 4705.25. -/
def esNew : CanonicalRecord :=
  ⟨⟨1704153600000000000, some 0⟩, "ES", 4700, 4706, 4699, 470525/100, 120⟩

/-- Witness for C2 at the spec's own example: re-ingesting ES / 2024-01-02
with close 4705.25 over the stored close 4700.00 leaves exactly one row for
the key, with the new values, and the store does not grow. -/
theorem C2_upsert_overwrites_witness :
    (upsert [esOld] esNew).filter (fun x => keyMatch x esNew) = [esNew] ∧
      (upsert [esOld] esNew).length = [esOld].length :=
  C2_upsert_overwrites [esOld] esNew (List.pairwise_singleton _ _) (by decide)

/-- C3: starting from the empty `futures_data.ohlcv_1d` table that
`ensure_schema_exists` creates with `PRIMARY KEY (time, symbol)`, after any
sequence of batch writes no two stored rows share the same `(time, symbol)`
pair: the uniqueness invariant holds initially and every write preserves
it. -/
theorem C3_key_uniqueness (batches : List (List CanonicalRecord)) :
    uniqueKeys (batches.foldl writeList []) := by
  have hgen : ∀ (bs : List (List CanonicalRecord)) (s : Store),
      uniqueKeys s → uniqueKeys (bs.foldl writeList s) := by
    intro bs
    induction bs with
    | nil => intro s h; exact h
    | cons b bs' ih => intro s h; exact ih _ (uniqueKeys_writeList b h)
  exact hgen batches [] List.Pairwise.nil

/-! ### The fetch adapter and the two ingestion drivers -/

/-- What the provider transport does on one call, as seen from inside
`request_continuous_daily_data`: deliver raw rows (possibly zero of them,
when the window legitimately has no trading data), or raise a network/auth
exception carrying message `msg`. -/
inductive ProviderCall where
  | rows (rs : List RawMarketRow)
  | raisedErr (msg : String)
deriving DecidableEq, Repr

/-- The `try/except` around `client.timeseries.get_range` in
`src/trade_ngin/adapters/databento.py` (lines 18–29): a provider-side
exception is re-raised as `ValueError("Error requesting data: ...")` — the
`ProviderError` of the spec's taxonomy — while delivered rows, empty or
not, flow on as a normal result. -/
def request_continuous_daily_data (call : ProviderCall) :
    Except String (List RawMarketRow) :=
  match call with
  | .raisedErr e => .error ("Error requesting data: " ++ e)
  | .rows rs => .ok rs

/-- The call `pd.Timestamp(row[ts_event]).tz_localize(timezone.utc)`: attaches the
UTC tag to a naive timestamp without shifting its value (Databento
publishes `ts_event` as UTC nanoseconds, so reading the digits as UTC is
the documented source timezone); pandas raises `TypeError` when the
timestamp is already tz-aware. -/
def tz_localize_utc (t : PyTimestamp) : Except String PyTimestamp :=
  match t.tz with
  | none => .ok { v := t.v, tz := some 0 }
  | some _ => .error "Already tz-aware, use tz_convert to convert."

/-- One iteration of the `records.append((...))` loop of
`src/trade_ngin/scripts/ingest_data.py` / `src/scripts/ingest_data.py`: the
UTC-localized `ts_event`, the script-supplied symbol, and the four prices
and the volume copied through unchanged. -/
def prepareRecord (symbol : String) (row : RawMarketRow) :
    Except String CanonicalRecord := do
  let t ← tz_localize_utc row.ts_event
  pure { time := t, symbol := symbol, openv := row.openv, high := row.high,
         low := row.low, close := row.close, volume := row.volume }

/-- The whole record-preparation loop; an exception in any iteration
propagates out of the loop (there is no per-row handler at this stage). -/
def prepareRecords (symbol : String) (rows : List RawMarketRow) :
    Except String (List CanonicalRecord) :=
  rows.mapM (prepareRecord symbol)

/-- Whether one row's INSERT into `futures_data.ohlcv_1d` succeeds: the
table's `volume INTEGER` column restricts the value to PostgreSQL's 32-bit
signed range, and an out-of-range value makes the statement raise.  The
scripts check nothing else — in particular no price relation is checked by
the database or the code. -/
def insertOk (r : CanonicalRecord) : Bool :=
  -2147483648 ≤ r.volume && r.volume < 2147483648

/-- Observable outcome of one `fetch_and_load_data` run of
`src/trade_ngin/scripts/ingest_data.py`.  The Python function returns
`None` on every path; this type records which exit was taken and what was
logged. -/
inductive RunOutcome where
  | fetchError
  | noData
  | loadError
  | loaded (n : Nat)
deriving DecidableEq, Repr

/-- The function `fetch_and_load_data(api_key)` of `src/trade_ngin/scripts/ingest_data.py`
(lines 47–116): a fetch exception is logged and the function returns with
nothing written; an empty DataFrame logs "No data returned" and returns;
otherwise the records are built (hard-coded symbol "ES"), sent through one
`execute_values` `INSERT ... ON CONFLICT (time, symbol) DO UPDATE`
statement and committed once.  If record preparation or the batch statement
raises, the exception is caught by the outer handler and the connection is
closed without commit, leaving the store unchanged. -/
def fetch_and_load_data (fetchRes : Except String (List RawMarketRow)) (s : Store) :
    Store × RunOutcome :=
  match fetchRes with
  | .error _ => (s, .fetchError)
  | .ok rows =>
    if rows.isEmpty then (s, .noData)
    else
      match prepareRecords "ES" rows with
      | .error _ => (s, .loadError)
      | .ok records =>
        if records.all insertOk then (writeList s records, .loaded records.length)
        else (s, .loadError)

/-- Parameters of `fetch_and_load_data` in `src/scripts/fetch_data.py`:
`symbol`, `start_date`, `end_date` (defaults "ES", "2023-01-01",
"2024-01-09"); the dataset ("CME") and the interval ("1d") are hard-coded
in the body, not configurable. -/
structure FetchConfig where
  symbol : String
  start_date : String
  end_date : String
deriving DecidableEq, Repr

/-- How the `src/scripts/fetch_data.py` process run ends: normally, or via
the `sys.exit(1)` in the outer exception handler. -/
inductive ExitKind where
  | normal
  | exitOne
deriving DecidableEq, Repr

/-- Everything observable about one `fetch_and_load_data` call of
`src/scripts/fetch_data.py`: the committed store, how the process exited,
the Python return value of the call, and the `rows_inserted` count that the
success log line reports. -/
structure DriverResult where
  store : Store
  exitKind : ExitKind
  returned : Option Nat
  loggedCount : Option Nat
deriving DecidableEq, Repr

/-- The tuple bound by each `cur.execute` in `src/scripts/fetch_data.py`:
`(row.timestamp, symbol, row.open, row.high, row.low, row.close,
row.volume)` — provider timestamp and prices pass through unchanged (no
timezone localization, no rounding). -/
def fd_record (symbol : String) (row : RawMarketRow) : CanonicalRecord :=
  { time := row.ts_event, symbol := symbol, openv := row.openv, high := row.high,
    low := row.low, close := row.close, volume := row.volume }

/-- The per-row insert loop of `src/scripts/fetch_data.py` (lines 87–113):
each row's upsert INSERT is wrapped in its own `try/except` that logs the
failure and `continue`s with the next row; `rows_inserted` counts the rows
whose `cur.execute` succeeded.  All the INSERTs run inside one psycopg2
transaction (no autocommit, no savepoints), so a failing INSERT aborts the
transaction: every later `cur.execute` raises `InFailedSqlTransaction`,
which the same per-row handler also catches, and no further row succeeds.
The result is the pending (uncommitted) store, the aborted flag, and
`rows_inserted`. -/
def insertLoop (s : Store) (aborted : Bool) (recs : List CanonicalRecord) :
    Store × Bool × Nat :=
  match recs, aborted with
  | [], ab => (s, ab, 0)
  | _ :: rest, true => insertLoop s true rest
  | r :: rest, false =>
    if insertOk r then
      let p := insertLoop (upsert s r) false rest
      (p.1, p.2.1, p.2.2 + 1)
    else
      insertLoop s true rest

/-- The function `fetch_and_load_data(api_key, symbol, start_date, end_date)` of
`src/scripts/fetch_data.py` (lines 55–126).  A provider failure propagates
to the outer handler, which rolls back and calls `sys.exit(1)`; an empty
DataFrame returns early with a warning; otherwise the per-row loop runs and
`conn.commit()` follows — on an intact transaction it commits the pending
rows, while on an aborted transaction PostgreSQL executes the COMMIT as a
ROLLBACK (the statement itself does not raise), discarding every pending
row, so the committed store is all of the batch or none of it.  The script
then logs "Successfully inserted/updated {rows_inserted} rows" either way
and exits normally.  On every path the Python function returns `None`: no
success flag and no row count reach the caller as a return value. -/
def fetch_and_load_data_fd (cfg : FetchConfig)
    (fetchRes : Except String (List RawMarketRow)) (s : Store) : DriverResult :=
  match fetchRes with
  | .error _ =>
    { store := s, exitKind := .exitOne, returned := none, loggedCount := none }
  | .ok rows =>
    if rows.isEmpty then
      { store := s, exitKind := .normal, returned := none, loggedCount := none }
    else
      let p := insertLoop s false (rows.map (fd_record cfg.symbol))
      { store := if p.2.1 then s else p.1, exitKind := .normal, returned := none,
        loggedCount := some p.2.2 }

/-! ### Inversion lemmas for the normalization step -/

theorem tz_localize_utc_ok {t t' : PyTimestamp} (h : tz_localize_utc t = .ok t') :
    t.tz = none ∧ t' = ⟨t.v, some 0⟩ := by
  unfold tz_localize_utc at h
  cases htz : t.tz with
  | none =>
    rw [htz] at h
    exact ⟨rfl, (Except.ok.inj h).symm⟩
  | some z =>
    rw [htz] at h
    exact absurd h (by simp)

theorem prepareRecord_ok_elim {symbol : String} {row : RawMarketRow}
    {rec : CanonicalRecord} (h : prepareRecord symbol row = .ok rec) :
    rec = ⟨⟨row.ts_event.v, some 0⟩, symbol, row.openv, row.high, row.low,
      row.close, row.volume⟩ := by
  unfold prepareRecord at h
  cases ht : tz_localize_utc row.ts_event with
  | error e =>
    rw [ht] at h
    exact absurd h (by simp [Bind.bind, Except.bind])
  | ok t =>
    rw [ht] at h
    obtain ⟨htz, ht'⟩ := tz_localize_utc_ok ht
    subst ht'
    have h' : Except.ok (⟨⟨row.ts_event.v, some 0⟩, symbol, row.openv, row.high,
        row.low, row.close, row.volume⟩ : CanonicalRecord) = Except.ok rec := h
    exact (Except.ok.inj h').symm

/-- Soundness of the preparation loop: on success it emits exactly one
record per raw row, each produced by `prepareRecord` from some input row. -/
theorem prepareRecords_sound {symbol : String} :
    ∀ {rows : List RawMarketRow} {recs : List CanonicalRecord},
      prepareRecords symbol rows = .ok recs →
        recs.length = rows.length ∧
          ∀ rec ∈ recs, ∃ row ∈ rows, prepareRecord symbol row = .ok rec := by
  intro rows
  induction rows with
  | nil =>
    intro recs h
    unfold prepareRecords at h
    rw [List.mapM_nil] at h
    have hn : ([] : List CanonicalRecord) = recs := Except.ok.inj h
    subst hn
    exact ⟨rfl, fun rec hrec => absurd hrec (List.not_mem_nil rec)⟩
  | cons row rest ih =>
    intro recs h
    unfold prepareRecords at h
    rw [List.mapM_cons] at h
    cases hb : prepareRecord symbol row with
    | error e =>
      rw [hb] at h
      exact absurd h (by simp [Bind.bind, Except.bind])
    | ok b =>
      rw [hb] at h
      cases hbs : rest.mapM (prepareRecord symbol) with
      | error e =>
        rw [hbs] at h
        exact absurd h (by simp [Bind.bind, Except.bind])
      | ok bs =>
        rw [hbs] at h
        have h' : Except.ok (b :: bs) = Except.ok recs := h
        have hrecs : b :: bs = recs := Except.ok.inj h'
        subst hrecs
        obtain ⟨hlen, hmem⟩ := ih hbs
        refine ⟨by simp [hlen], ?_⟩
        intro rec hrec
        rcases List.mem_cons.mp hrec with rfl | hrec'
        · exact ⟨row, List.mem_cons_self row rest, hb⟩
        · obtain ⟨row', hrow', hok⟩ := hmem rec hrec'
          exact ⟨row', List.mem_cons_of_mem _ hrow', hok⟩

/-! ### Concrete inputs for witnesses and counterexamples -/

/-- A well-formed provider row: naive timestamp `t`, all prices `p`. -/
def rawRow (t : Int) (p : Rat) : RawMarketRow :=
  ⟨⟨t, none⟩, "ESH4", p, p, p, p, 100⟩

/-- A provider row violating the spec's numeric sanity: high = 1 < low = 2
(and high < open, high < close). -/
def badRow : RawMarketRow :=
  ⟨⟨3, none⟩, "ESH4", 10, 1, 2, 10, 100⟩

/-- Ten provider rows with distinct timestamps, one of them `badRow`. -/
def batchTen : List RawMarketRow :=
  [rawRow 1 10, rawRow 2 10, badRow, rawRow 4 10, rawRow 5 10,
   rawRow 6 10, rawRow 7 10, rawRow 8 10, rawRow 9 10, rawRow 10 10]

/-- What `prepareRecord "ES"` makes of `rawRow t p`. -/
def canRec (t : Int) (p : Rat) : CanonicalRecord :=
  ⟨⟨t, some 0⟩, "ES", p, p, p, p, 100⟩

/-- The records prepared from `batchTen`. -/
def batchTenRecs : List CanonicalRecord :=
  [canRec 1 10, canRec 2 10, ⟨⟨3, some 0⟩, "ES", 10, 1, 2, 10, 100⟩,
   canRec 4 10, canRec 5 10, canRec 6 10, canRec 7 10, canRec 8 10,
   canRec 9 10, canRec 10 10]

/-! ### Claims C4–C10 -/

/-- C4 counterexample: running the ingest driver on a ten-row batch of
which one row has `high < low` stores ten rows, not nine — the row with
`high < low` is persisted like any other and the run reports ten loaded
rows.  (The claim predicts exactly nine stored rows.) -/
theorem C4_counterexample :
    (fetch_and_load_data (.ok batchTen) []).2 = .loaded 10 ∧
      (fetch_and_load_data (.ok batchTen) []).1.length = 10 ∧
      ∃ r ∈ (fetch_and_load_data (.ok batchTen) []).1, r.high < r.low := by
  decide

/-- C4 amended: the pipeline performs no numeric validation at all — record
preparation emits exactly one record per input row, whatever the price
relations, so a ten-row batch with one `high < low` row results in ten
stored/updated rows (and the run does not abort). -/
theorem C4_no_validation_exclusion (symbol : String) (rows : List RawMarketRow)
    (recs : List CanonicalRecord) (h : prepareRecords symbol rows = .ok recs) :
    recs.length = rows.length :=
  (prepareRecords_sound h).1

/-- Witness for the amended C4 at the ten-row batch containing a
`high < low` row: all ten rows survive preparation. -/
theorem C4_no_validation_exclusion_witness :
    batchTenRecs.length = batchTen.length :=
  C4_no_validation_exclusion "ES" batchTen batchTenRecs rfl

/-- Once the transaction is aborted every remaining `cur.execute` raises
`InFailedSqlTransaction` and is skipped by the per-row handler: the pending
store stops changing and no further row is counted. -/
theorem insertLoop_true_eq (recs : List CanonicalRecord) :
    ∀ s : Store, insertLoop s true recs = (s, true, 0) := by
  induction recs with
  | nil => intro s; rfl
  | cons r rest ih => intro s; exact ih s

/-- When the loop finishes with the transaction intact, every row of the
batch succeeded: the pending store is the full batch application and
`rows_inserted` is the batch length. -/
theorem insertLoop_not_aborted {recs : List CanonicalRecord} :
    ∀ {s : Store}, (insertLoop s false recs).2.1 = false →
      (insertLoop s false recs).1 = writeList s recs ∧
        (insertLoop s false recs).2.2 = recs.length := by
  induction recs with
  | nil => intro s _; exact ⟨rfl, rfl⟩
  | cons r rest ih =>
    intro s h
    by_cases hok : insertOk r = true
    · simp only [insertLoop, if_pos hok] at h ⊢
      obtain ⟨h1, h2⟩ := ih h
      exact ⟨h1, by rw [h2]; rfl⟩
    · simp only [insertLoop, if_neg hok] at h
      rw [insertLoop_true_eq rest s] at h
      cases h

/-- A provider row whose INSERT raises: volume 2^31 overflows the table's
`volume INTEGER` column, aborting the shared transaction. -/
def hugeVolRow : RawMarketRow := ⟨⟨2, none⟩, "ESH4", 5, 6, 4, 5, 2147483648⟩

/-- C5 counterexample: the batch writer of `src/scripts/fetch_data.py` does
per-row exception handling inside the persistence of a batch, observably so:
on a two-row batch whose second row's INSERT raises, the row-level handler
catches the failure instead of letting it abort the run, the loop continues,
and the script finishes normally logging "Successfully inserted/updated 1
rows" — while the aborted transaction's COMMIT is executed as a ROLLBACK
and zero rows are committed.  Without the per-row handler the failure would
have reached the outer handler (rollback and `sys.exit(1)`, as
request-level failures do); instead the run reports a success whose count
matches neither the committed rows (0) nor the batch size (2), refuting the
claim's "no per-row exception handling occurs inside the persistence of a
batch". -/
theorem C5_counterexample :
    (fetch_and_load_data_fd ⟨"ES", "2023-01-01", "2024-01-09"⟩
        (.ok [rawRow 1 10, hugeVolRow]) []).store = [] ∧
      (fetch_and_load_data_fd ⟨"ES", "2023-01-01", "2024-01-09"⟩
        (.ok [rawRow 1 10, hugeVolRow]) []).exitKind = .normal ∧
      (fetch_and_load_data_fd ⟨"ES", "2023-01-01", "2024-01-09"⟩
        (.ok [rawRow 1 10, hugeVolRow]) []).loggedCount = some 1 := by
  decide

/-- C5 amended: every call of either batch writer leaves the store fully
updated with the batch or untouched.  The `execute_values` writer
(`src/trade_ngin/scripts/ingest_data.py`) sends the batch as one statement
and commits once; the `fetch_data.py` writer shares one transaction across
the row loop, so a failing INSERT aborts it and the final COMMIT is
executed as a ROLLBACK.  The `fetch_data.py` writer does, however, contain
per-row exception handling inside the batch loop, which swallows row
failures: the run then completes as a success whose logged `rows_inserted`
counts only the prefix of rows that succeeded before the abort (see the
counterexample). -/
theorem C5_batch_all_or_nothing (cfg : FetchConfig)
    (fetchRes : Except String (List RawMarketRow)) (s : Store) :
    ((fetch_and_load_data_fd cfg fetchRes s).store = s ∨
      ∃ rows, fetchRes = .ok rows ∧
        (fetch_and_load_data_fd cfg fetchRes s).store =
          writeList s (rows.map (fd_record cfg.symbol))) ∧
    ((fetch_and_load_data fetchRes s).1 = s ∨
      ∃ rows recs, fetchRes = .ok rows ∧ prepareRecords "ES" rows = .ok recs ∧
        (fetch_and_load_data fetchRes s).1 = writeList s recs) := by
  constructor
  · cases fetchRes with
    | error e => exact Or.inl rfl
    | ok rows =>
      cases hrows : rows.isEmpty with
      | true => exact Or.inl (by simp [fetch_and_load_data_fd, hrows])
      | false =>
        cases hab : (insertLoop s false (rows.map (fd_record cfg.symbol))).2.1 with
        | true => exact Or.inl (by simp [fetch_and_load_data_fd, hrows, hab])
        | false =>
          refine Or.inr ⟨rows, rfl, ?_⟩
          have happ := insertLoop_not_aborted hab
          simp [fetch_and_load_data_fd, hrows, hab, happ.1]
  · cases fetchRes with
    | error e => exact Or.inl rfl
    | ok rows =>
      cases hrows : rows.isEmpty with
      | true => exact Or.inl (by simp [fetch_and_load_data, hrows])
      | false =>
        cases hprep : prepareRecords "ES" rows with
        | error e => exact Or.inl (by simp [fetch_and_load_data, hrows, hprep])
        | ok recs =>
          cases hok : recs.all insertOk with
          | false => exact Or.inl (by simp [fetch_and_load_data, hrows, hprep, hok])
          | true =>
            exact Or.inr ⟨rows, recs, rfl, hprep,
              by simp [fetch_and_load_data, hrows, hprep, hok]⟩

/-- C6: a provider network/auth error makes the adapter call fail with the
raised `ValueError("Error requesting data: ...")` — the `ProviderError` of
the spec's taxonomy — while a window that legitimately has no trading data
flows through as an empty row list (an explicit no-data result, not an
error), after which the driver returns with the store untouched and zero
rows written. -/
theorem C6_provider_error_and_empty_window (e : String) (s : Store) :
    request_continuous_daily_data (.raisedErr e) =
        .error ("Error requesting data: " ++ e) ∧
      request_continuous_daily_data (.rows []) = .ok [] ∧
      fetch_and_load_data (.ok []) s = (s, .noData) :=
  ⟨rfl, rfl, rfl⟩

/-- The provider row of the spec's round-trip example: open = 4700.125
(exactly 37601/8). -/
def row4700125 : RawMarketRow :=
  ⟨⟨1, none⟩, "ESH4", 37601/8, 37601/8, 37601/8, 37601/8, 100⟩

/-- C7 counterexample: ingesting a row with open = 4700.125 stores
4700.125 itself, not the claimed two-decimal rounding 4700.13: nothing on
the persistence path rounds prices. -/
theorem C7_counterexample :
    (fetch_and_load_data (.ok [row4700125]) []).1 =
        [⟨⟨1, some 0⟩, "ES", 37601/8, 37601/8, 37601/8, 37601/8, 100⟩] ∧
      ¬ ∃ r ∈ (fetch_and_load_data (.ok [row4700125]) []).1,
          r.openv = 470013/100 := by
  refine ⟨rfl, ?_⟩
  intro hex
  obtain ⟨r, hr, hval⟩ := hex
  have hstore : (fetch_and_load_data (.ok [row4700125]) []).1 =
      [⟨⟨1, some 0⟩, "ES", 37601/8, 37601/8, 37601/8, 37601/8, 100⟩] := rfl
  rw [hstore, List.mem_singleton] at hr
  subst hr
  norm_num at hval

/-- C7 amended: prices (and the volume) are persisted exactly as received
from the provider — a pure pass-through with no rounding — so repeated
ingestion of the same source value stores the identical value each run. -/
theorem C7_prices_pass_through (symbol : String) (row : RawMarketRow)
    (rec : CanonicalRecord) (h : prepareRecord symbol row = .ok rec) :
    rec.openv = row.openv ∧ rec.high = row.high ∧ rec.low = row.low ∧
      rec.close = row.close ∧ rec.volume = row.volume := by
  rw [prepareRecord_ok_elim h]
  exact ⟨rfl, rfl, rfl, rfl, rfl⟩

/-- Witness for the amended C7 at open = 4700.125: the stored open is
exactly the source 4700.125. -/
theorem C7_prices_pass_through_witness :
    (canRec 1 (37601/8)).openv = row4700125.openv ∧
      (canRec 1 (37601/8)).high = row4700125.high ∧
      (canRec 1 (37601/8)).low = row4700125.low ∧
      (canRec 1 (37601/8)).close = row4700125.close ∧
      (canRec 1 (37601/8)).volume = row4700125.volume :=
  C7_prices_pass_through "ES" row4700125 (canRec 1 (37601/8)) rfl

/-- C8: the normalization step interprets each provider `ts_event` in its
documented source timezone (UTC: the value is not shifted) and tags it
UTC; `tz_localize` only accepts naive inputs, and every record the
preparation loop emits carries the UTC tag — no prepared record reaches
the store with a naive timestamp. -/
theorem C8_timestamps_utc (symbol : String) (rows : List RawMarketRow)
    (recs : List CanonicalRecord) (h : prepareRecords symbol rows = .ok recs) :
    (∀ rec ∈ recs, rec.time.tz = some 0) ∧
      ∀ t t' : PyTimestamp, tz_localize_utc t = .ok t' →
        t'.v = t.v ∧ t'.tz = some 0 := by
  constructor
  · intro rec hrec
    obtain ⟨row, _, hok⟩ := (prepareRecords_sound h).2 rec hrec
    rw [prepareRecord_ok_elim hok]
  · intro t t' ht
    obtain ⟨_, ht'⟩ := tz_localize_utc_ok ht
    exact ⟨by rw [ht'], by rw [ht']⟩

/-- Witness for C8 at the ten-row batch: every prepared record is
UTC-tagged, and localizing the naive timestamp 7 keeps its value. -/
theorem C8_timestamps_utc_witness :
    (∀ rec ∈ batchTenRecs, rec.time.tz = some 0) ∧
      ∀ t t' : PyTimestamp, tz_localize_utc t = .ok t' →
        t'.v = t.v ∧ t'.tz = some 0 :=
  C8_timestamps_utc "ES" batchTen batchTenRecs rfl

/-- C9 counterexample: an invocation of the driver entry point that
successfully writes one row returns `None` — neither a success/failure
indication nor a count of rows written comes back to the caller (the count
is only logged). -/
theorem C9_counterexample :
    (fetch_and_load_data_fd ⟨"ES", "2023-01-01", "2024-01-09"⟩
        (.ok [rawRow 1 10]) []).returned = none ∧
      (fetch_and_load_data_fd ⟨"ES", "2023-01-01", "2024-01-09"⟩
        (.ok [rawRow 1 10]) []).store ≠ [] := by
  decide

/-- C9 amended: the `src/scripts/fetch_data.py` entry point accepts an API
credential plus symbol/start/end (dataset "CME" and interval "1d" are
hard-coded, not configuration) and returns `None` on every path; failure
is signalled only through the process exiting with status 1, and the
rows-written count only through a log line. -/
theorem C9_driver_returns_nothing (cfg : FetchConfig)
    (fetchRes : Except String (List RawMarketRow)) (s : Store) :
    (fetch_and_load_data_fd cfg fetchRes s).returned = none ∧
      ((fetch_and_load_data_fd cfg fetchRes s).exitKind = .exitOne ↔
        ∃ e, fetchRes = .error e) := by
  cases fetchRes with
  | error e => exact ⟨rfl, ⟨fun _ => ⟨e, rfl⟩, fun _ => rfl⟩⟩
  | ok rows =>
    cases hrows : rows.isEmpty with
    | true =>
      refine ⟨by simp [fetch_and_load_data_fd, hrows], ?_⟩
      simp [fetch_and_load_data_fd, hrows]
    | false =>
      refine ⟨by simp [fetch_and_load_data_fd, hrows], ?_⟩
      simp [fetch_and_load_data_fd, hrows]

/-- C10: every record a single invocation writes carries the one symbol the
script supplies (the hard-coded "ES" or the `symbol` parameter), regardless
of the per-row symbol/instrument field in the provider's returned data:
record preparation stamps the supplied symbol on every record, and the
`fetch_data.py` row tuples use the `symbol` parameter for every row, so no
invocation writes rows under more than one symbol value. -/
theorem C10_single_symbol (symbol : String) (rows : List RawMarketRow)
    (recs : List CanonicalRecord) (h : prepareRecords symbol rows = .ok recs) :
    (∀ rec ∈ recs, rec.symbol = symbol) ∧
      ∀ (sym' : String) (rows' : List RawMarketRow),
        ∀ rec ∈ rows'.map (fd_record sym'), rec.symbol = sym' := by
  constructor
  · intro rec hrec
    obtain ⟨row, _, hok⟩ := (prepareRecords_sound h).2 rec hrec
    rw [prepareRecord_ok_elim hok]
  · intro sym' rows' rec hrec
    obtain ⟨row, _, hrow⟩ := List.mem_map.mp hrec
    rw [← hrow]
    rfl

/-- Witness for C10 at the ten-row batch: every prepared record carries
"ES" even though the provider rows carry the contract symbol "ESH4". -/
theorem C10_single_symbol_witness :
    (∀ rec ∈ batchTenRecs, rec.symbol = "ES") ∧
      ∀ (sym' : String) (rows' : List RawMarketRow),
        ∀ rec ∈ rows'.map (fd_record sym'), rec.symbol = sym' :=
  C10_single_symbol "ES" batchTen batchTenRecs rfl
